import Mathlib

/-!
Verification of the ReACT trading-agent repository.

Shallow embedding of the components the specification's testable claims
refer to: the `Portfolio` ledger (src/react/data_models/portfolio.py),
the LLM response parsing pipeline, the post-THINK routing function, the
final decision extraction and the ACT step
(src/react/agent/agent_graph.py).

Python floats are modelled as rationals, Python dicts as association
lists with unique keys (first-match lookup, in-place replacement on
insert), and a Python function that can raise an uncaught exception is
modelled as returning an `Option` with `none` for the raising runs.
-/

/-- ASCII-range model of Python `str.upper` on a single character. -/
def upperChar (c : Char) : Char :=
  if 'a' ≤ c ∧ c ≤ 'z' then Char.ofNat (c.toNat - 32) else c

/-- ASCII-range model of Python `str.lower` on a single character. -/
def lowerChar (c : Char) : Char :=
  if 'A' ≤ c ∧ c ≤ 'Z' then Char.ofNat (c.toNat + 32) else c

/-- Model of Python `str.upper` (ASCII letters). -/
def pyUpper (s : String) : String := String.mk (s.toList.map upperChar)

/-- Model of Python `str.lower` (ASCII letters). -/
def pyLower (s : String) : String := String.mk (s.toList.map lowerChar)

/-- The ASCII whitespace characters stripped by Python `str.strip`. -/
def isPyWs (c : Char) : Bool :=
  c == ' ' || c == '\t' || c == '\n' || c == '\r' || c == '\x0b' || c == '\x0c'

/-- Model of Python `str.strip` on a character list. -/
def pyStripList (cs : List Char) : List Char :=
  ((cs.dropWhile isPyWs).reverse.dropWhile isPyWs).reverse

/-- Model of Python `str.strip`. -/
def pyStrip (s : String) : String := String.mk (pyStripList s.toList)

/-- Python dict lookup on an association list (keys are unique in any
dict produced by the modelled code; lookup takes the first match). -/
def dictGet {α : Type} : List (String × α) → String → Option α
  | [], _ => none
  | (k, v) :: rest, key => if k == key then some v else dictGet rest key

/-- Python dict assignment: replace the value at an existing key in
place, otherwise append the new binding at the end. -/
def dictInsert {α : Type} : List (String × α) → String → α → List (String × α)
  | [], key, v => [(key, v)]
  | (k, w) :: rest, key, v =>
      if k == key then (key, v) :: rest else (k, w) :: dictInsert rest key v

/-- Python `del d[key]`: remove the binding at `key`. -/
def dictErase {α : Type} (kvs : List (String × α)) (key : String) : List (String × α) :=
  kvs.filter (fun kv => kv.1 != key)

/-- `Position` from src/react/data_models/portfolio.py. -/
structure Position where
  symbol : String
  quantity : ℚ
  avg_price : ℚ
  current_price : Option ℚ := none
  deriving DecidableEq

/-- `Portfolio` state from src/react/data_models/portfolio.py: the
`positions` dict and the `cash` scalar. -/
structure Portfolio where
  positions : List (String × Position)
  cash : ℚ
  deriving DecidableEq

/-- `Portfolio.add_position`: upper-cases the symbol and stores a fresh
`Position` under it (current_price starts unset). -/
def Portfolio.add_position (p : Portfolio) (symbol : String) (quantity : ℚ) (avg_price : ℚ) : Portfolio :=
  let pos : Position :=
    { symbol := pyUpper symbol, quantity := quantity, avg_price := avg_price, current_price := none }
  { p with positions := dictInsert p.positions (pyUpper symbol) pos }

/-- `Portfolio.buy`: cost = quantity * current_price; fails (returning
`false`, state unchanged) when cost exceeds cash; otherwise debits cash
and either updates the position found under the raw symbol key (summed
quantity, weighted average price) or calls `add_position`. The Python
division `total_cost / total_quantity` is modelled by total rational
division (Python would raise `ZeroDivisionError` when the summed
quantity is zero; no claim depends on that point). -/
def Portfolio.buy (p : Portfolio) (symbol : String) (quantity : ℚ) (current_price : ℚ) : Portfolio × Bool :=
  let cost := quantity * current_price
  if cost > p.cash then (p, false)
  else
    match dictGet p.positions symbol with
    | some pos =>
        ({ cash := p.cash - cost,
           positions := dictInsert p.positions symbol
             { pos with quantity := pos.quantity + quantity,
                        avg_price := (pos.quantity * pos.avg_price + cost) / (pos.quantity + quantity) } }, true)
    | none => (Portfolio.add_position { p with cash := p.cash - cost } symbol quantity current_price, true)

/-- `Portfolio.sell`: upper-cases the symbol, fails (returning `false`,
state unchanged) when the symbol is not held or the requested quantity
exceeds the held quantity; `none` for the quantity means sell all.
Credits proceeds to cash; a full sell deletes the dict entry, a partial
sell only decrements the quantity. -/
def Portfolio.sell (p : Portfolio) (symbol : String) (quantity : Option ℚ) (current_price : ℚ) : Portfolio × Bool :=
  let sym := pyUpper symbol
  match dictGet p.positions sym with
  | none => (p, false)
  | some pos =>
      let sell_qty := quantity.getD pos.quantity
      if sell_qty > pos.quantity then (p, false)
      else if sell_qty = pos.quantity then
        ({ cash := p.cash + sell_qty * current_price,
           positions := dictErase p.positions sym }, true)
      else
        ({ cash := p.cash + sell_qty * current_price,
           positions := dictInsert p.positions sym { pos with quantity := pos.quantity - sell_qty } }, true)

/-- One call in a buy/sell call sequence against the portfolio. -/
inductive TradeOp where
  | buyOp (symbol : String) (quantity : ℚ) (price : ℚ)
  | sellOp (symbol : String) (quantity : Option ℚ) (price : ℚ)
  deriving DecidableEq

/-- Apply one buy/sell call, keeping the resulting state. -/
def applyOp (p : Portfolio) : TradeOp → Portfolio
  | .buyOp s q c => (p.buy s q c).1
  | .sellOp s q c => (p.sell s q c).1

/-- Run a sequence of buy/sell calls from an initial portfolio. -/
def runOps (p : Portfolio) (ops : List TradeOp) : Portfolio := ops.foldl applyOp p

/-- All position quantities of the portfolio are non-negative. -/
def Portfolio.nonnegQuantities (p : Portfolio) : Prop :=
  ∀ kv ∈ p.positions, 0 ≤ kv.2.quantity

instance (p : Portfolio) : Decidable p.nonnegQuantities := by
  unfold Portfolio.nonnegQuantities; infer_instance

/-- The call's quantity and price arguments are non-negative. -/
def TradeOp.nonneg : TradeOp → Prop
  | .buyOp _ q c => 0 ≤ q ∧ 0 ≤ c
  | .sellOp _ q c => (∀ x ∈ q, 0 ≤ x) ∧ 0 ≤ c

instance (op : TradeOp) : Decidable op.nonneg := by
  cases op <;> (unfold TradeOp.nonneg; infer_instance)

/-- JSON values as produced by Python's `json.loads` (objects become
dicts; duplicate keys collapse via dict assignment while parsing). -/
inductive JValue where
  | null : JValue
  | bool (b : Bool) : JValue
  | num (q : ℚ) : JValue
  | str (s : String) : JValue
  | arr (elements : List JValue) : JValue
  | obj (fields : List (String × JValue)) : JValue

/-- The whitespace characters the JSON grammar skips. -/
def isJsonWs (c : Char) : Bool :=
  c == ' ' || c == '\t' || c == '\n' || c == '\r'

/-- Skip JSON whitespace. -/
def jsonSkipWs (cs : List Char) : List Char := cs.dropWhile isJsonWs

/-- Decimal value of a digit run. -/
def digitsToNat (ds : List Char) : Nat :=
  ds.foldl (fun n c => 10 * n + (c.toNat - 48)) 0

/-- Hexadecimal value of one digit, if any. -/
def hexVal (c : Char) : Option Nat :=
  if '0' ≤ c ∧ c ≤ '9' then some (c.toNat - 48)
  else if 'a' ≤ c ∧ c ≤ 'f' then some (c.toNat - 87)
  else if 'A' ≤ c ∧ c ≤ 'F' then some (c.toNat - 55)
  else none

/-- Parse the body of a JSON string literal (after the opening quote),
returning the decoded characters and the remaining input. Models the
strict `json.loads` string grammar on the non-surrogate-pair fragment:
raw control characters are rejected, the standard escapes and `\uXXXX`
are decoded. -/
def parseStrChars : Nat → List Char → Option (List Char × List Char)
  | 0, _ => none
  | _, [] => none
  | fuel + 1, c :: rest =>
    if c == '"' then some ([], rest)
    else if c == '\\' then
      match rest with
      | [] => none
      | e :: rest2 =>
        let esc : Option (Char × List Char) :=
          if e == '"' then some ('"', rest2)
          else if e == '\\' then some ('\\', rest2)
          else if e == '/' then some ('/', rest2)
          else if e == 'b' then some ('\x08', rest2)
          else if e == 'f' then some ('\x0c', rest2)
          else if e == 'n' then some ('\n', rest2)
          else if e == 'r' then some ('\r', rest2)
          else if e == 't' then some ('\t', rest2)
          else if e == 'u' then
            match rest2 with
            | h1 :: h2 :: h3 :: h4 :: rest3 =>
              match hexVal h1, hexVal h2, hexVal h3, hexVal h4 with
              | some a, some b, some c2, some d =>
                  some (Char.ofNat (((a * 16 + b) * 16 + c2) * 16 + d), rest3)
              | _, _, _, _ => none
            | _ => none
          else none
        match esc with
        | some (ch, rest3) =>
          match parseStrChars fuel rest3 with
          | some (s, r) => some (ch :: s, r)
          | none => none
        | none => none
    else if c.toNat < 32 then none
    else
      match parseStrChars fuel rest with
      | some (s, r) => some (c :: s, r)
      | none => none

/-- Parse a JSON number per the strict grammar: optional minus, integer
part without leading zeros, optional fraction, optional exponent. -/
def parseJsonNumber (cs : List Char) : Option (ℚ × List Char) :=
  let signed : Bool × List Char :=
    match cs with
    | '-' :: r => (true, r)
    | r => (false, r)
  let intDs := signed.2.takeWhile Char.isDigit
  let cs1 := signed.2.dropWhile Char.isDigit
  if intDs.isEmpty then none
  else if 1 < intDs.length ∧ intDs.headI = '0' then none
  else
    let fracStep : Option (List Char × List Char) :=
      match cs1 with
      | '.' :: r =>
        let ds := r.takeWhile Char.isDigit
        if ds.isEmpty then none else some (ds, r.dropWhile Char.isDigit)
      | r => some ([], r)
    match fracStep with
    | none => none
    | some (fracDs, cs2) =>
      let mantissa : ℚ := (digitsToNat intDs : ℚ) + (digitsToNat fracDs : ℚ) / ((10 : ℚ) ^ fracDs.length)
      let mantissa := if signed.1 then -mantissa else mantissa
      match cs2 with
      | 'e' :: r | 'E' :: r =>
        let expSigned : Bool × List Char :=
          match r with
          | '-' :: r2 => (true, r2)
          | '+' :: r2 => (false, r2)
          | r2 => (false, r2)
        let expDs := expSigned.2.takeWhile Char.isDigit
        if expDs.isEmpty then none
        else
          let scale : ℚ :=
            if expSigned.1 then 1 / ((10 : ℚ) ^ digitsToNat expDs)
            else (10 : ℚ) ^ digitsToNat expDs
          some (mantissa * scale, expSigned.2.dropWhile Char.isDigit)
      | _ => some (mantissa, cs2)

mutual

/-- Parse one JSON value, returning it with the remaining input. -/
def parseJsonValue : Nat → List Char → Option (JValue × List Char)
  | 0, _ => none
  | fuel + 1, cs =>
    match jsonSkipWs cs with
    | [] => none
    | c :: rest =>
      if c == '{' then
        match jsonSkipWs rest with
        | '}' :: r => some (.obj [], r)
        | r => parseJsonMembers fuel r []
      else if c == '[' then
        match jsonSkipWs rest with
        | ']' :: r => some (.arr [], r)
        | r => parseJsonElements fuel r []
      else if c == '"' then
        match parseStrChars (rest.length + 1) rest with
        | some (s, r) => some (.str (String.mk s), r)
        | none => none
      else if c == 't' then
        match rest with
        | 'r' :: 'u' :: 'e' :: r => some (.bool true, r)
        | _ => none
      else if c == 'f' then
        match rest with
        | 'a' :: 'l' :: 's' :: 'e' :: r => some (.bool false, r)
        | _ => none
      else if c == 'n' then
        match rest with
        | 'u' :: 'l' :: 'l' :: r => some (.null, r)
        | _ => none
      else if c == '-' || c.isDigit then
        match parseJsonNumber (c :: rest) with
        | some (q, r) => some (.num q, r)
        | none => none
      else none

/-- Parse the members of a JSON object (after the opening brace, first
member expected); duplicate keys collapse by dict assignment. -/
def parseJsonMembers : Nat → List Char → List (String × JValue) → Option (JValue × List Char)
  | 0, _, _ => none
  | fuel + 1, cs, acc =>
    match jsonSkipWs cs with
    | '"' :: rest =>
      match parseStrChars (rest.length + 1) rest with
      | none => none
      | some (key, r1) =>
        match jsonSkipWs r1 with
        | ':' :: r2 =>
          match parseJsonValue fuel r2 with
          | none => none
          | some (v, r3) =>
            let acc2 := dictInsert acc (String.mk key) v
            match jsonSkipWs r3 with
            | ',' :: r4 => parseJsonMembers fuel r4 acc2
            | '}' :: r4 => some (.obj acc2, r4)
            | _ => none
        | _ => none
    | _ => none

/-- Parse the elements of a JSON array (after the opening bracket,
first element expected). -/
def parseJsonElements : Nat → List Char → List JValue → Option (JValue × List Char)
  | 0, _, _ => none
  | fuel + 1, cs, acc =>
    match parseJsonValue fuel cs with
    | none => none
    | some (v, r1) =>
      match jsonSkipWs r1 with
      | ',' :: r2 => parseJsonElements fuel r2 (acc ++ [v])
      | ']' :: r2 => some (.arr (acc ++ [v]), r2)
      | _ => none

end

/-- Model of Python `json.loads`: parse exactly one JSON document with
optional surrounding whitespace; anything else is a parse failure
(`none` models the raised `JSONDecodeError`). The model covers the
strict JSON grammar (the `NaN`/`Infinity` extension and surrogate
pairs, which no claim touches, are omitted). -/
def json_loads (s : String) : Option JValue :=
  let cs := s.toList
  match parseJsonValue (2 * cs.length + 2) cs with
  | some (v, rest) => if (jsonSkipWs rest).isEmpty then some v else none
  | none => none

/-- A character that is neither an opening nor a closing brace. -/
def nonBrace (c : Char) : Bool := c != '{' && c != '}'

/-- Match the regular expression used by `_parse_llm_response` at a
position just after an opening brace: a run of non-brace characters,
then any number of one-level nested brace groups each followed by a
run, then a closing brace. Returns the matched characters after the
opening brace. The greedy backtracking search of the Python pattern is
deterministic here because runs cannot contain braces. -/
def braceMatchBody : Nat → List Char → List Char → Option (List Char)
  | 0, _, _ => none
  | fuel + 1, cs, acc =>
    let run := cs.takeWhile nonBrace
    match cs.dropWhile nonBrace with
    | '}' :: _ => some (acc ++ run ++ ['}'])
    | '{' :: rest2 =>
      let run2 := rest2.takeWhile nonBrace
      match rest2.dropWhile nonBrace with
      | '}' :: rest4 => braceMatchBody fuel rest4 (acc ++ run ++ '{' :: run2 ++ ['}'])
      | _ => none
    | _ => none

/-- Model of `re.search` with the one-level-nested brace-block pattern
of `_parse_llm_response`: try each start position from the left and
return the first (leftmost) match. -/
def braceSearch : List Char → Option (List Char)
  | [] => none
  | c :: rest =>
    if c == '{' then
      match braceMatchBody (rest.length + 1) rest [] with
      | some body => some ('{' :: body)
      | none => braceSearch rest
    else braceSearch rest

/-- The brace-block search on strings. -/
def re_search_brace_block (s : String) : Option String :=
  (braceSearch s.toList).map String.mk

/-- `TradingAgentGraph._clean_json_text`: strip, then collapse doubled
opening braces, then doubled closing braces (left-to-right,
non-overlapping, as Python `str.replace` does). -/
def replacePair (c : Char) : List Char → List Char
  | [] => []
  | [x] => [x]
  | x :: y :: rest =>
    if x == c && y == c then c :: replacePair c rest
    else x :: replacePair c (y :: rest)

/-- `TradingAgentGraph._clean_json_text` on strings. -/
def _clean_json_text (s : String) : String :=
  String.mk (replacePair '}' (replacePair '{' (pyStripList s.toList)))

/-- The record returned by `_parse_llm_response` when no JSON could be
extracted from the model output. -/
def default_done_record : JValue :=
  .obj [("action", .str "done"),
        ("reasoning", .str "Could not parse LLM response"),
        ("trade_action", .str "done"),
        ("symbol", .str ""),
        ("quantity", .num 0)]

/-- The record returned by `_parse_llm_response` for empty or
whitespace-only model output. -/
def empty_response_record : JValue :=
  .obj [("action", .str "done"), ("reasoning", .str "Empty LLM response")]

/-- `TradingAgentGraph._parse_llm_response`: empty input yields the
empty-response record; otherwise clean the text and try `json_loads`;
on failure search for the first brace block and try `json_loads` on it;
on failure return the default done record. The Python function catches
every decode error, so the model is a total function. -/
def _parse_llm_response (response : String) : JValue :=
  if (pyStripList response.toList).isEmpty then empty_response_record
  else
    let cleaned := _clean_json_text response
    match json_loads cleaned with
    | some j => j
    | none =>
      match re_search_brace_block cleaned with
      | some m =>
        match json_loads m with
        | some j => j
        | none => default_done_record
      | none => default_done_record

/-- Whether a parsed response is an object carrying an `action` (or
`trade_action`) field and a `reasoning` field. -/
def hasActionAndReasoning : JValue → Bool
  | .obj kvs =>
      ((dictGet kvs "action").isSome || (dictGet kvs "trade_action").isSome)
        && (dictGet kvs "reasoning").isSome
  | _ => false

/-- Python `d.get(key, default)` on a parsed JSON object. -/
def pyGetJ (kvs : List (String × JValue)) (key : String) (dflt : JValue) : JValue :=
  (dictGet kvs key).getD dflt

/-- Python `value.lower()` on a fetched JSON value: succeeds only for
strings (`none` models the `AttributeError` raised otherwise). -/
def pyStrLower : JValue → Option String
  | .str s => some (pyLower s)
  | _ => none

/-- Python `value.upper()` on a fetched JSON value: succeeds only for
strings (`none` models the `AttributeError` raised otherwise). -/
def pyStrUpper : JValue → Option String
  | .str s => some (pyUpper s)
  | _ => none

/-- Model of Python `float(str)`: optional surrounding whitespace, an
optional sign, digits with an optional decimal point, and an optional
exponent; `none` models the raised `ValueError`. (The `inf`/`nan`
spellings and digit underscores, which no claim touches, are
omitted.) -/
def pyFloatOfStr (s : String) : Option ℚ :=
  let cs0 := pyStripList s.toList
  let signed : ℚ × List Char :=
    match cs0 with
    | '-' :: r => (-1, r)
    | '+' :: r => (1, r)
    | r => (1, r)
  let intDs := signed.2.takeWhile Char.isDigit
  let cs1 := signed.2.dropWhile Char.isDigit
  let fracSplit : List Char × List Char :=
    match cs1 with
    | '.' :: r => (r.takeWhile Char.isDigit, r.dropWhile Char.isDigit)
    | r => ([], r)
  if intDs.isEmpty && fracSplit.1.isEmpty then none
  else
    let mantissa : ℚ :=
      (digitsToNat intDs : ℚ) + (digitsToNat fracSplit.1 : ℚ) / ((10 : ℚ) ^ fracSplit.1.length)
    match fracSplit.2 with
    | [] => some (signed.1 * mantissa)
    | e :: r =>
      if e == 'e' || e == 'E' then
        let expSigned : Bool × List Char :=
          match r with
          | '-' :: r2 => (true, r2)
          | '+' :: r2 => (false, r2)
          | r2 => (false, r2)
        let expDs := expSigned.2.takeWhile Char.isDigit
        if expDs.isEmpty || !(expSigned.2.dropWhile Char.isDigit).isEmpty then none
        else
          let scale : ℚ :=
            if expSigned.1 then 1 / ((10 : ℚ) ^ digitsToNat expDs)
            else (10 : ℚ) ^ digitsToNat expDs
          some (signed.1 * mantissa * scale)
      else none

/-- Model of Python `float(x)` on a JSON value: numbers pass through,
strings go through the numeric-string grammar, booleans coerce to 1 or
0; `none` models the `TypeError`/`ValueError` raised otherwise. -/
def pyFloat : JValue → Option ℚ
  | .num q => some q
  | .str s => pyFloatOfStr s
  | .bool b => some (if b then 1 else 0)
  | _ => none

/-- `Action` from src/react/agent/agent_state.py, as built by
`decide_action`. The reasoning is stored verbatim, so it keeps the
JSON value type. -/
structure AgentAction where
  type : String
  symbol : String
  quantity : ℚ
  reasoning : JValue

/-- `TradingAgentGraph.decide_action`: lower-case the `trade_action`
field (default "done"), upper-case the `symbol` field (default ""),
coerce the `quantity` field (default 0) through `float`, take the
`reasoning` field verbatim, and coerce any action type outside
buy/sell/done to "done". `none` models an uncaught exception (a
non-string trade_action or symbol, or a quantity `float` cannot
convert). -/
def decide_action (llm_response : JValue) : Option AgentAction :=
  match llm_response with
  | .obj kvs =>
    match pyStrLower (pyGetJ kvs "trade_action" (.str "done")) with
    | none => none
    | some ta =>
      match pyStrUpper (pyGetJ kvs "symbol" (.str "")) with
      | none => none
      | some symbol =>
        match pyFloat (pyGetJ kvs "quantity" (.num 0)) with
        | none => none
        | some quantity =>
          let reasoning := pyGetJ kvs "reasoning" (.str "No decision made")
          let ta := if ta = "buy" ∨ ta = "sell" ∨ ta = "done" then ta else "done"
          some { type := ta, symbol := symbol, quantity := quantity, reasoning := reasoning }
  | _ => none

/-- The action tag a response contributes to routing: Python
`response.get("action", "done").lower()`; `none` models the
`AttributeError` on a non-string tag or a non-dict response. -/
def routeActionTag (resp : JValue) : Option String :=
  match resp with
  | .obj kvs => pyStrLower (pyGetJ kvs "action" (.str "done"))
  | _ => none

/-- `TradingAgentGraph._route_from_think`: once the trajectory length
reaches `max_think_steps` the result is "decide" without looking at the
response; otherwise the lower-cased action tag picks "observe",
"think", or "decide" for anything else. -/
def _route_from_think (max_think_steps : Nat) (trajectory_len : Nat) (resp : JValue) : Option String :=
  if trajectory_len ≥ max_think_steps then some "decide"
  else
    match routeActionTag resp with
    | none => none
    | some action =>
      if action = "observe" then some "observe"
      else if action = "think" then some "think"
      else some "decide"

/-- Price snapshot lookup in `_node_act`:
`state["prices"].get(symbol, 0.0)`. -/
def prices_get (prices : List (String × ℚ)) (symbol : String) : ℚ :=
  (dictGet prices symbol).getD 0

/-- The portfolio effect of `TradingAgentGraph._node_act`: a buy action
calls `Portfolio.buy` with the decided quantity, a sell action calls
`Portfolio.sell` with quantity `None` (sell all), anything else leaves
the portfolio unchanged; the price is the latest observed price for the
action's symbol, defaulting to 0. -/
def _node_act_portfolio (portfolio : Portfolio) (prices : List (String × ℚ)) (action : AgentAction) : Portfolio :=
  if action.type = "buy" then
    (portfolio.buy action.symbol action.quantity (prices_get prices action.symbol)).1
  else if action.type = "sell" then
    (portfolio.sell action.symbol none (prices_get prices action.symbol)).1
  else portfolio

/-- Trajectory lengths at which the THINK node can run within one
episode: it runs first with an empty trajectory, and runs again at
length `n + 1` only when routing on the length-`n + 1` trajectory sent
the graph back to THINK or OBSERVE (the OBSERVE node transitions to
THINK unconditionally). -/
inductive ThinkReach (maxS : Nat) : Nat → Prop where
  | zero : ThinkReach maxS 0
  | cont (n : Nat) (resp : JValue) (h : ThinkReach maxS n)
      (hr : _route_from_think maxS (n + 1) resp = some "think" ∨
            _route_from_think maxS (n + 1) resp = some "observe") :
      ThinkReach maxS (n + 1)

theorem dictGet_dictInsert_self {α : Type} (kvs : List (String × α)) (k : String) (v : α) :
    dictGet (dictInsert kvs k v) k = some v := by
  induction kvs with
  | nil => simp [dictGet, dictInsert]
  | cons kv rest ih =>
    by_cases h : kv.1 == k
    · simp [dictInsert, h, dictGet]
    · simp only [dictInsert]
      rw [show (kv.1, kv.2) = kv from rfl]  -- keep the pair intact
      simp [h, dictGet, ih]

theorem dictGet_dictInsert_ne {α : Type} (kvs : List (String × α)) (k k' : String) (v : α)
    (h : k' ≠ k) : dictGet (dictInsert kvs k v) k' = dictGet kvs k' := by
  induction kvs with
  | nil => simp [dictGet, dictInsert, h, Ne.symm h]
  | cons kv rest ih =>
    by_cases hk : kv.1 == k
    · have : kv.1 = k := by simpa using hk
      simp [dictInsert, hk, dictGet, this, Ne.symm h]
    · simp only [dictInsert, hk]
      simp only [Bool.false_eq_true, if_false]
      by_cases hk' : kv.1 == k'
      · simp [dictGet, hk']
      · simp [dictGet, hk', ih]

theorem dictGet_dictErase_self {α : Type} (kvs : List (String × α)) (k : String) :
    dictGet (dictErase kvs k) k = none := by
  induction kvs with
  | nil => simp [dictGet, dictErase]
  | cons kv rest ih =>
    by_cases h : kv.1 == k
    · have h2 : (kv.1 != k) = false := by simp_all
      simpa [dictErase, List.filter_cons, h2] using ih
    · have h2 : (kv.1 != k) = true := by simp_all
      simp only [dictErase, List.filter_cons, h2, if_true] at ih ⊢
      simp [dictGet, h, ih]

theorem dictGet_mem {α : Type} {kvs : List (String × α)} {k : String} {v : α}
    (h : dictGet kvs k = some v) : (k, v) ∈ kvs := by
  induction kvs with
  | nil => simp [dictGet] at h
  | cons kv rest ih =>
    obtain ⟨k0, v0⟩ := kv
    by_cases hk : k0 == k
    · have h1 : k0 = k := by simpa using hk
      simp only [dictGet, hk, if_true, Option.some.injEq] at h
      subst h1
      rw [← h]
      exact List.mem_cons_self _ _
    · simp only [dictGet, hk, Bool.false_eq_true, if_false] at h
      exact List.mem_cons_of_mem _ (ih h)

theorem mem_dictInsert {α : Type} {kvs : List (String × α)} {k : String} {v : α}
    {kv : String × α} (h : kv ∈ dictInsert kvs k v) : kv = (k, v) ∨ kv ∈ kvs := by
  induction kvs with
  | nil => simpa [dictInsert] using h
  | cons kv0 rest ih =>
    by_cases hk : kv0.1 == k
    · simp only [dictInsert, hk, if_true] at h
      rcases List.mem_cons.mp h with h | h
      · exact Or.inl h
      · exact Or.inr (List.mem_cons_of_mem _ h)
    · simp only [dictInsert, hk, Bool.false_eq_true, if_false] at h
      rcases List.mem_cons.mp h with h | h
      · exact Or.inr (by simp [h])
      · rcases ih h with h2 | h2
        · exact Or.inl h2
        · exact Or.inr (List.mem_cons_of_mem _ h2)

theorem mem_dictErase {α : Type} {kvs : List (String × α)} {k : String}
    {kv : String × α} (h : kv ∈ dictErase kvs k) : kv ∈ kvs :=
  List.mem_of_mem_filter h

theorem Portfolio.buy_insufficient (p : Portfolio) (s : String) (q c : ℚ)
    (h : p.cash < q * c) : p.buy s q c = (p, false) := by
  have hg : q * c > p.cash := h
  simp [Portfolio.buy, if_pos hg]

theorem Portfolio.buy_not_held (p : Portfolio) (s : String) (q c : ℚ)
    (hc : q * c ≤ p.cash) (hn : dictGet p.positions s = none) :
    p.buy s q c =
      ({ cash := p.cash - q * c,
         positions := dictInsert p.positions (pyUpper s)
           ⟨pyUpper s, q, c, none⟩ }, true) := by
  have hng : ¬ (q * c > p.cash) := not_lt.mpr hc
  simp [Portfolio.buy, if_neg hng, hn, Portfolio.add_position]

theorem Portfolio.buy_held (p : Portfolio) (s : String) (q c : ℚ) (pos : Position)
    (hc : q * c ≤ p.cash) (hp : dictGet p.positions s = some pos) :
    p.buy s q c =
      ({ cash := p.cash - q * c,
         positions := dictInsert p.positions s
           { pos with quantity := pos.quantity + q,
                      avg_price := (pos.quantity * pos.avg_price + q * c) / (pos.quantity + q) } }, true) := by
  have hng : ¬ (q * c > p.cash) := not_lt.mpr hc
  simp [Portfolio.buy, if_neg hng, hp]

theorem Portfolio.sell_not_held (p : Portfolio) (s : String) (q : Option ℚ) (c : ℚ)
    (hn : dictGet p.positions (pyUpper s) = none) : p.sell s q c = (p, false) := by
  simp [Portfolio.sell, hn]

theorem Portfolio.sell_too_much (p : Portfolio) (s : String) (q : Option ℚ) (c : ℚ)
    (pos : Position) (hp : dictGet p.positions (pyUpper s) = some pos)
    (h : pos.quantity < q.getD pos.quantity) : p.sell s q c = (p, false) := by
  have hg : q.getD pos.quantity > pos.quantity := h
  simp [Portfolio.sell, hp, if_pos hg]

theorem Portfolio.sell_full (p : Portfolio) (s : String) (q : Option ℚ) (c : ℚ)
    (pos : Position) (hp : dictGet p.positions (pyUpper s) = some pos)
    (he : q.getD pos.quantity = pos.quantity) :
    p.sell s q c =
      ({ cash := p.cash + pos.quantity * c,
         positions := dictErase p.positions (pyUpper s) }, true) := by
  have hng : ¬ (q.getD pos.quantity > pos.quantity) := by rw [he]; exact lt_irrefl _
  simp [Portfolio.sell, hp, if_neg hng, he]

theorem Portfolio.sell_decrement (p : Portfolio) (s : String) (q : Option ℚ) (c : ℚ)
    (pos : Position) (hp : dictGet p.positions (pyUpper s) = some pos)
    (hle : q.getD pos.quantity ≤ pos.quantity) (hne : q.getD pos.quantity ≠ pos.quantity) :
    p.sell s q c =
      ({ cash := p.cash + q.getD pos.quantity * c,
         positions := dictInsert p.positions (pyUpper s)
           { pos with quantity := pos.quantity - q.getD pos.quantity } }, true) := by
  have hng : ¬ (q.getD pos.quantity > pos.quantity) := not_lt.mpr hle
  simp [Portfolio.sell, hp, if_neg hng, hne]

theorem Portfolio.buy_cash_nonneg (p : Portfolio) (s : String) (q c : ℚ)
    (h : 0 ≤ p.cash) : 0 ≤ (p.buy s q c).1.cash := by
  rcases lt_or_le p.cash (q * c) with hlt | hle
  · rw [Portfolio.buy_insufficient p s q c hlt]
    exact h
  · cases hd : dictGet p.positions s with
    | none => rw [Portfolio.buy_not_held p s q c hle hd]; simpa using hle
    | some pos => rw [Portfolio.buy_held p s q c pos hle hd]; simpa using hle

theorem Portfolio.buy_nonnegQuantities (p : Portfolio) (s : String) (q c : ℚ)
    (hp : p.nonnegQuantities) (hq : 0 ≤ q) : (p.buy s q c).1.nonnegQuantities := by
  rcases lt_or_le p.cash (q * c) with hlt | hle
  · rw [Portfolio.buy_insufficient p s q c hlt]; exact hp
  · cases hd : dictGet p.positions s with
    | none =>
      rw [Portfolio.buy_not_held p s q c hle hd]
      intro kv hkv
      rcases mem_dictInsert hkv with h2 | h2
      · simp [h2]; exact hq
      · exact hp kv h2
    | some pos =>
      rw [Portfolio.buy_held p s q c pos hle hd]
      intro kv hkv
      rcases mem_dictInsert hkv with h2 | h2
      · have hpos : 0 ≤ pos.quantity := hp _ (dictGet_mem hd)
        simp [h2]
        positivity
      · exact hp kv h2

theorem Portfolio.sell_cash_nonneg (p : Portfolio) (s : String) (q : Option ℚ) (c : ℚ)
    (h : 0 ≤ p.cash) (hp : p.nonnegQuantities) (hq : ∀ x ∈ q, 0 ≤ x) (hc : 0 ≤ c) :
    0 ≤ (p.sell s q c).1.cash := by
  cases hd : dictGet p.positions (pyUpper s) with
  | none => rw [Portfolio.sell_not_held p s q c hd]; exact h
  | some pos =>
    have hsq : 0 ≤ q.getD pos.quantity := by
      cases q with
      | none => exact hp _ (dictGet_mem hd)
      | some x => exact hq x rfl
    rcases lt_or_le pos.quantity (q.getD pos.quantity) with hlt | hle
    · rw [Portfolio.sell_too_much p s q c pos hd hlt]; exact h
    · by_cases he : q.getD pos.quantity = pos.quantity
      · rw [Portfolio.sell_full p s q c pos hd he]
        have : 0 ≤ pos.quantity * c := mul_nonneg (he ▸ hsq) hc
        simpa using add_nonneg h this
      · rw [Portfolio.sell_decrement p s q c pos hd hle he]
        have : 0 ≤ q.getD pos.quantity * c := mul_nonneg hsq hc
        simpa using add_nonneg h this

theorem Portfolio.sell_nonnegQuantities (p : Portfolio) (s : String) (q : Option ℚ) (c : ℚ)
    (hp : p.nonnegQuantities) : (p.sell s q c).1.nonnegQuantities := by
  cases hd : dictGet p.positions (pyUpper s) with
  | none => rw [Portfolio.sell_not_held p s q c hd]; exact hp
  | some pos =>
    rcases lt_or_le pos.quantity (q.getD pos.quantity) with hlt | hle
    · rw [Portfolio.sell_too_much p s q c pos hd hlt]; exact hp
    · by_cases he : q.getD pos.quantity = pos.quantity
      · rw [Portfolio.sell_full p s q c pos hd he]
        intro kv hkv
        exact hp kv (mem_dictErase hkv)
      · rw [Portfolio.sell_decrement p s q c pos hd hle he]
        intro kv hkv
        rcases mem_dictInsert hkv with h2 | h2
        · simp [h2]
          exact hle
        · exact hp kv h2

theorem applyOp_preserves (p : Portfolio) (op : TradeOp) (hop : op.nonneg)
    (h : 0 ≤ p.cash ∧ p.nonnegQuantities) :
    0 ≤ (applyOp p op).cash ∧ (applyOp p op).nonnegQuantities := by
  cases op with
  | buyOp s q c =>
    exact ⟨Portfolio.buy_cash_nonneg p s q c h.1,
           Portfolio.buy_nonnegQuantities p s q c h.2 hop.1⟩
  | sellOp s q c =>
    exact ⟨Portfolio.sell_cash_nonneg p s q c h.1 h.2 hop.1 hop.2,
           Portfolio.sell_nonnegQuantities p s q c h.2⟩

theorem runOps_preserves (p : Portfolio) (ops : List TradeOp)
    (hops : ∀ op ∈ ops, op.nonneg) (h : 0 ≤ p.cash ∧ p.nonnegQuantities) :
    0 ≤ (runOps p ops).cash ∧ (runOps p ops).nonnegQuantities := by
  induction ops generalizing p with
  | nil => exact h
  | cons op rest ih =>
    have h1 := applyOp_preserves p op (hops op (List.mem_cons_self _ _)) h
    exact ih (applyOp p op) (fun o ho => hops o (List.mem_cons_of_mem _ ho)) h1

/-- Claim C1, counterexample: the cash invariant fails for arbitrary
arguments. From a portfolio with non-negative cash holding five AAPL
shares, the single call sell("AAPL", 5, -100) drives cash to -500: the
code credits proceeds = quantity * price without checking the sign of
the price (a negative sell quantity has the same effect). -/
theorem c1_counterexample :
    0 ≤ (Portfolio.mk [("AAPL", Position.mk "AAPL" 5 10 none)] 0).cash ∧
    (runOps (Portfolio.mk [("AAPL", Position.mk "AAPL" 5 10 none)] 0)
        [TradeOp.sellOp "AAPL" (some 5) (-100)]).cash < 0 := by
  refine ⟨le_rfl, ?_⟩
  have hs := Portfolio.sell_full (Portfolio.mk [("AAPL", Position.mk "AAPL" 5 10 none)] 0)
    "AAPL" (some 5) (-100) (Position.mk "AAPL" 5 10 none) rfl rfl
  show ((Portfolio.mk [("AAPL", Position.mk "AAPL" 5 10 none)] 0).sell "AAPL" (some 5) (-100)).1.cash < 0
  rw [hs]
  show (0 : ℚ) + 5 * (-100) < 0
  norm_num

/-- Claim C1, amended: for every sequence of buy and sell calls whose
quantity and price arguments are non-negative, starting from a
portfolio with non-negative cash and non-negative position quantities,
cash never goes negative; and unconditionally (arbitrary arguments),
cash stays non-negative after any single buy. -/
theorem c1_cash_invariant :
    (∀ (p0 : Portfolio) (ops : List TradeOp),
        0 ≤ p0.cash → p0.nonnegQuantities → (∀ op ∈ ops, op.nonneg) →
        0 ≤ (runOps p0 ops).cash) ∧
    (∀ (p : Portfolio) (s : String) (q c : ℚ),
        0 ≤ p.cash → 0 ≤ (p.buy s q c).1.cash) := by
  constructor
  · intro p0 ops h0 hq hops
    exact (runOps_preserves p0 ops hops ⟨h0, hq⟩).1
  · intro p s q c h
    exact Portfolio.buy_cash_nonneg p s q c h

/-- Claim C1, witness: the invariant theorem applied to a concrete
buy-then-sell-all sequence. -/
theorem c1_witness :
    0 ≤ (runOps (Portfolio.mk [] 100)
        [TradeOp.buyOp "AAPL" 2 10, TradeOp.sellOp "aapl" none 15]).cash :=
  c1_cash_invariant.1 (Portfolio.mk [] 100)
    [TradeOp.buyOp "AAPL" 2 10, TradeOp.sellOp "aapl" none 15]
    (by norm_num)
    (by intro kv hkv; simp at hkv)
    (by
      intro op hop
      simp only [List.mem_cons, List.not_mem_nil, or_false] at hop
      rcases hop with h | h <;> subst h <;> constructor
      · norm_num
      · norm_num
      · intro x hx; simp at hx
      · norm_num)

/-- Claim C2: buy semantics. A buy whose cost exceeds cash fails with
no mutation; otherwise it succeeds, debits cash by the cost, and either
reweights the position found under the raw symbol key or creates a
fresh position under the upper-cased symbol with avg_price = price.
Scenario A from the specification is checked concretely. -/
theorem c2_buy_spec :
    (∀ (p : Portfolio) (s : String) (q c : ℚ),
        p.cash < q * c → p.buy s q c = (p, false)) ∧
    (∀ (p : Portfolio) (s : String) (q c : ℚ), q * c ≤ p.cash →
        ((p.buy s q c).2 = true ∧ (p.buy s q c).1.cash = p.cash - q * c) ∧
        (∀ pos, dictGet p.positions s = some pos →
          dictGet (p.buy s q c).1.positions s =
            some { pos with quantity := pos.quantity + q,
                            avg_price := (pos.quantity * pos.avg_price + q * c) / (pos.quantity + q) }) ∧
        (dictGet p.positions s = none →
          dictGet (p.buy s q c).1.positions (pyUpper s) =
            some ⟨pyUpper s, q, c, none⟩)) ∧
    (((Portfolio.mk [] 1000).buy "AAPL" 3 100).1.cash = 700 ∧
     dictGet ((Portfolio.mk [] 1000).buy "AAPL" 3 100).1.positions "AAPL" =
       some (Position.mk "AAPL" 3 100 none)) ∧
    ((((Portfolio.mk [] 1000).buy "AAPL" 3 100).1.buy "AAPL" 2 130).1.cash = 440 ∧
     dictGet (((Portfolio.mk [] 1000).buy "AAPL" 3 100).1.buy "AAPL" 2 130).1.positions "AAPL" =
       some (Position.mk "AAPL" 5 112 none)) := by
  have e1 : (Portfolio.mk [] 1000).buy "AAPL" 3 100 =
      (Portfolio.mk [("AAPL", Position.mk "AAPL" 3 100 none)] 700, true) := by
    rw [Portfolio.buy_not_held (Portfolio.mk [] 1000) "AAPL" 3 100 (by norm_num) rfl]
    rw [show pyUpper "AAPL" = "AAPL" from rfl]
    norm_num [dictInsert, Prod.mk.injEq, Portfolio.mk.injEq]
  have e2 : (Portfolio.mk [("AAPL", Position.mk "AAPL" 3 100 none)] 700).buy "AAPL" 2 130 =
      (Portfolio.mk [("AAPL", Position.mk "AAPL" 5 112 none)] 440, true) := by
    rw [Portfolio.buy_held (Portfolio.mk [("AAPL", Position.mk "AAPL" 3 100 none)] 700)
      "AAPL" 2 130 (Position.mk "AAPL" 3 100 none) (by norm_num) rfl]
    norm_num [dictInsert, Prod.mk.injEq, Portfolio.mk.injEq, Position.mk.injEq]
  refine ⟨?_, ?_, ?_, ?_⟩
  · intro p s q c h
    exact Portfolio.buy_insufficient p s q c h
  · intro p s q c hle
    refine ⟨?_, ?_, ?_⟩
    · cases hd : dictGet p.positions s with
      | none => rw [Portfolio.buy_not_held p s q c hle hd]; exact ⟨rfl, rfl⟩
      | some pos => rw [Portfolio.buy_held p s q c pos hle hd]; exact ⟨rfl, rfl⟩
    · intro pos hd
      rw [Portfolio.buy_held p s q c pos hle hd]
      exact dictGet_dictInsert_self ..
    · intro hd
      rw [Portfolio.buy_not_held p s q c hle hd]
      exact dictGet_dictInsert_self ..
  · rw [e1]
    exact ⟨rfl, rfl⟩
  · rw [e1, e2]
    exact ⟨rfl, rfl⟩

/-- Claim C2, witness: the buy-success conjunct applied to Scenario A's
first call. -/
theorem c2_witness :
    (3 : ℚ) * 100 ≤ (Portfolio.mk [] 1000).cash ∧
    ((Portfolio.mk [] 1000).buy "AAPL" 3 100).2 = true :=
  ⟨by norm_num, ((c2_buy_spec.2.1 (Portfolio.mk [] 1000) "AAPL" 3 100 (by norm_num)).1).1⟩

/-- Claim C3: sell semantics. The call fails — via the boolean result,
with the state unchanged — exactly when the upper-cased symbol is not
held or the requested quantity (defaulting to the held quantity)
exceeds the held quantity. On success the proceeds are credited to
cash; selling the full held quantity removes the symbol's entry from
the holdings mapping, and a partial sell only decrements the quantity,
leaving avg_price (and the rest of the position) unchanged. -/
theorem c3_sell_spec :
    (∀ (p : Portfolio) (s : String) (q : Option ℚ) (c : ℚ),
        (p.sell s q c).2 = false ↔
          dictGet p.positions (pyUpper s) = none ∨
          ∃ pos, dictGet p.positions (pyUpper s) = some pos ∧
            pos.quantity < q.getD pos.quantity) ∧
    (∀ (p : Portfolio) (s : String) (q : Option ℚ) (c : ℚ),
        (p.sell s q c).2 = false → (p.sell s q c).1 = p) ∧
    (∀ (p : Portfolio) (s : String) (q : Option ℚ) (c : ℚ) (pos : Position),
        dictGet p.positions (pyUpper s) = some pos →
        q.getD pos.quantity ≤ pos.quantity →
        (p.sell s q c).2 = true ∧
        (p.sell s q c).1.cash = p.cash + q.getD pos.quantity * c ∧
        (q.getD pos.quantity = pos.quantity →
          dictGet (p.sell s q c).1.positions (pyUpper s) = none) ∧
        (q.getD pos.quantity ≠ pos.quantity →
          dictGet (p.sell s q c).1.positions (pyUpper s) =
            some { pos with quantity := pos.quantity - q.getD pos.quantity })) := by
  refine ⟨?_, ?_, ?_⟩
  · intro p s q c
    constructor
    · intro hf
      cases hd : dictGet p.positions (pyUpper s) with
      | none => exact Or.inl rfl
      | some pos =>
        rcases lt_or_le pos.quantity (q.getD pos.quantity) with hlt | hle
        · exact Or.inr ⟨pos, rfl, hlt⟩
        · exfalso
          by_cases he : q.getD pos.quantity = pos.quantity
          · rw [Portfolio.sell_full p s q c pos hd he] at hf
            simp at hf
          · rw [Portfolio.sell_decrement p s q c pos hd hle he] at hf
            simp at hf
    · intro h
      rcases h with hn | ⟨pos, hd, hlt⟩
      · rw [Portfolio.sell_not_held p s q c hn]
      · rw [Portfolio.sell_too_much p s q c pos hd hlt]
  · intro p s q c hf
    cases hd : dictGet p.positions (pyUpper s) with
    | none => rw [Portfolio.sell_not_held p s q c hd]
    | some pos =>
      rcases lt_or_le pos.quantity (q.getD pos.quantity) with hlt | hle
      · rw [Portfolio.sell_too_much p s q c pos hd hlt]
      · exfalso
        by_cases he : q.getD pos.quantity = pos.quantity
        · rw [Portfolio.sell_full p s q c pos hd he] at hf
          simp at hf
        · rw [Portfolio.sell_decrement p s q c pos hd hle he] at hf
          simp at hf
  · intro p s q c pos hd hle
    by_cases he : q.getD pos.quantity = pos.quantity
    · rw [Portfolio.sell_full p s q c pos hd he]
      refine ⟨rfl, by rw [he], fun _ => dictGet_dictErase_self .., fun hne => absurd he hne⟩
    · rw [Portfolio.sell_decrement p s q c pos hd hle he]
      exact ⟨rfl, rfl, fun heq => absurd heq he, fun _ => dictGet_dictInsert_self ..⟩

/-- Claim C3, witness: the success conjunct applied to a concrete full
sell, with the symbol given in lower case. -/
theorem c3_witness :
    ((Portfolio.mk [("MSFT", Position.mk "MSFT" 4 20 none)] 50).sell "msft" (some 4) 30).2 = true ∧
    dictGet ((Portfolio.mk [("MSFT", Position.mk "MSFT" 4 20 none)] 50).sell
        "msft" (some 4) 30).1.positions (pyUpper "msft") = none := by
  have h := c3_sell_spec.2.2 (Portfolio.mk [("MSFT", Position.mk "MSFT" 4 20 none)] 50)
    "msft" (some 4) 30 (Position.mk "MSFT" 4 20 none) rfl le_rfl
  exact ⟨h.1, h.2.2.1 rfl⟩

/-- Claim C6, counterexample: when the symbol is already held, the
round trip buy("AAPL",3,100) then sell("AAPL",3,100) restores cash but
does not remove the position — the sell is partial, because the
holding's quantity is the old quantity plus the bought quantity. -/
theorem c6_counterexample :
    (3 : ℚ) * 100 ≤ (Portfolio.mk [("AAPL", Position.mk "AAPL" 5 10 none)] 1000).cash ∧
    (((Portfolio.mk [("AAPL", Position.mk "AAPL" 5 10 none)] 1000).buy "AAPL" 3 100).1.sell
        "AAPL" (some 3) 100).1.cash =
      (Portfolio.mk [("AAPL", Position.mk "AAPL" 5 10 none)] 1000).cash ∧
    dictGet (((Portfolio.mk [("AAPL", Position.mk "AAPL" 5 10 none)] 1000).buy
        "AAPL" 3 100).1.sell "AAPL" (some 3) 100).1.positions "AAPL" ≠ none := by
  have e1 : (Portfolio.mk [("AAPL", Position.mk "AAPL" 5 10 none)] 1000).buy "AAPL" 3 100 =
      (Portfolio.mk [("AAPL", Position.mk "AAPL" 8 (350 / 8) none)] 700, true) := by
    rw [Portfolio.buy_held (Portfolio.mk [("AAPL", Position.mk "AAPL" 5 10 none)] 1000)
      "AAPL" 3 100 (Position.mk "AAPL" 5 10 none) (by norm_num) rfl]
    norm_num [dictInsert, Prod.mk.injEq, Portfolio.mk.injEq, Position.mk.injEq]
  have e2 : (Portfolio.mk [("AAPL", Position.mk "AAPL" 8 (350 / 8) none)] 700).sell
      "AAPL" (some 3) 100 =
      (Portfolio.mk [("AAPL", Position.mk "AAPL" 5 (350 / 8) none)] 1000, true) := by
    rw [Portfolio.sell_decrement (Portfolio.mk [("AAPL", Position.mk "AAPL" 8 (350 / 8) none)] 700)
      "AAPL" (some 3) 100 (Position.mk "AAPL" 8 (350 / 8) none) rfl (by norm_num) (by norm_num)]
    rw [show pyUpper "AAPL" = "AAPL" from rfl]
    norm_num [dictInsert, Prod.mk.injEq, Portfolio.mk.injEq, Position.mk.injEq]
  refine ⟨by norm_num, ?_, ?_⟩
  · rw [e1, e2]
  · rw [e1, e2]
    simp [dictGet]

/-- Claim C6, amended: buy(X, q, p) immediately followed by
sell(X, q, p) always restores cash to its pre-buy value, but it removes
X's position only when X was not a key of the holdings mapping before
the buy (or was held with quantity zero); when X was already held with
positive quantity, the sell is partial and the position remains, its
quantity back at the pre-buy value (its avg_price reweighted by the
buy). -/
theorem c6_roundtrip :
    (∀ (p : Portfolio) (s : String) (q c : ℚ),
        dictGet p.positions s = none → q * c ≤ p.cash →
        (((p.buy s q c).1.sell s (some q) c).1.cash = p.cash ∧
         dictGet (((p.buy s q c).1.sell s (some q) c).1).positions (pyUpper s) = none)) ∧
    (∀ (p : Portfolio) (s : String) (q c : ℚ) (pos : Position),
        dictGet p.positions s = some pos → pyUpper s = s → 0 ≤ pos.quantity →
        q * c ≤ p.cash →
        (((p.buy s q c).1.sell s (some q) c).1.cash = p.cash ∧
         (pos.quantity = 0 →
           dictGet (((p.buy s q c).1.sell s (some q) c).1).positions s = none) ∧
         (pos.quantity ≠ 0 →
           dictGet (((p.buy s q c).1.sell s (some q) c).1).positions s =
             some { pos with avg_price :=
               (pos.quantity * pos.avg_price + q * c) / (pos.quantity + q) }))) := by
  constructor
  · intro p s q c hn hc
    rw [Portfolio.buy_not_held p s q c hc hn]
    have hd1 : dictGet (dictInsert p.positions (pyUpper s)
        (⟨pyUpper s, q, c, none⟩ : Position)) (pyUpper s) =
        some ⟨pyUpper s, q, c, none⟩ := dictGet_dictInsert_self ..
    have hs := Portfolio.sell_full
      (Portfolio.mk (dictInsert p.positions (pyUpper s) ⟨pyUpper s, q, c, none⟩) (p.cash - q * c))
      s (some q) c ⟨pyUpper s, q, c, none⟩ hd1 rfl
    rw [hs]
    constructor
    · show p.cash - q * c + q * c = p.cash
      ring
    · exact dictGet_dictErase_self ..
  · intro p s q c pos hd hu hpos hc
    rw [Portfolio.buy_held p s q c pos hc hd]
    generalize hR : ({ pos with quantity := pos.quantity + q, avg_price := (pos.quantity * pos.avg_price + q * c) / (pos.quantity + q) } : Position) = pos1
    have hq1 : pos1.quantity = pos.quantity + q := by rw [← hR]
    have hsym1 : pos1.symbol = pos.symbol := by rw [← hR]
    have ha1 : pos1.avg_price = (pos.quantity * pos.avg_price + q * c) / (pos.quantity + q) := by
      rw [← hR]
    have hcp1 : pos1.current_price = pos.current_price := by rw [← hR]
    have hd1 : dictGet (dictInsert p.positions s pos1) (pyUpper s) = some pos1 := by
      rw [hu]
      exact dictGet_dictInsert_self ..
    by_cases hz : pos.quantity = 0
    · have he : (some q).getD pos1.quantity = pos1.quantity := by
        show q = pos1.quantity
        rw [hq1, hz, zero_add]
      rw [Portfolio.sell_full (Portfolio.mk (dictInsert p.positions s pos1) (p.cash - q * c))
        s (some q) c pos1 hd1 he]
      refine ⟨?_, fun _ => ?_, fun hne => absurd hz hne⟩
      · show p.cash - q * c + pos1.quantity * c = p.cash
        rw [hq1, hz]
        ring
      · show dictGet (dictErase (dictInsert p.positions s pos1) (pyUpper s)) s = none
        rw [hu]
        exact dictGet_dictErase_self ..
    · have hle : (some q).getD pos1.quantity ≤ pos1.quantity := by
        show q ≤ pos1.quantity
        rw [hq1]
        linarith
      have hne1 : (some q).getD pos1.quantity ≠ pos1.quantity := by
        show q ≠ pos1.quantity
        rw [hq1]
        intro hh
        exact hz (by linarith)
      rw [Portfolio.sell_decrement (Portfolio.mk (dictInsert p.positions s pos1) (p.cash - q * c))
        s (some q) c pos1 hd1 hle hne1]
      refine ⟨?_, fun heq => absurd heq hz, fun _ => ?_⟩
      · show p.cash - q * c + q * c = p.cash
        ring
      · show dictGet (dictInsert (dictInsert p.positions s pos1) (pyUpper s) ({ pos1 with quantity := pos1.quantity - (some q).getD pos1.quantity })) s = _
        rw [hu, dictGet_dictInsert_self]
        simp only [Option.getD_some, Option.some.injEq, Position.mk.injEq]
        refine ⟨hsym1, by rw [hq1]; ring, ha1, hcp1⟩

/-- Claim C6, witness: the not-previously-held conjunct of the
round-trip theorem at a concrete portfolio. -/
theorem c6_witness :
    (((Portfolio.mk [] 500).buy "msft" 2 100).1.sell "msft" (some 2) 100).1.cash =
      (Portfolio.mk [] 500).cash ∧
    dictGet ((((Portfolio.mk [] 500).buy "msft" 2 100).1.sell
        "msft" (some 2) 100).1).positions (pyUpper "msft") = none :=
  c6_roundtrip.1 (Portfolio.mk [] 500) "msft" 2 100 rfl (by norm_num)

/-- Claim C4, counterexample: the parser does not always return a
mapping with the contracted fields. On input "3" the strict JSON parse
succeeds and the parsed value — the number 3, neither a mapping nor a
record with an action and a reasoning field — is returned verbatim. -/
theorem c4_counterexample :
    hasActionAndReasoning (_parse_llm_response "3") = false := by
  rfl

/-- Claim C4, amended: the parser is total (never raises); every result
either carries an action (or trade_action) field and a reasoning field,
or is exactly the JSON value extracted from the cleaned input or from
its first brace block. When no JSON can be extracted, concretely
checked on garbage input, the result is exactly the default done
record, which carries an empty symbol, zero quantity and a diagnostic
reasoning. -/
theorem c4_parser_contract :
    (∀ s : String,
        hasActionAndReasoning (_parse_llm_response s) = true ∨
        json_loads (_clean_json_text s) = some (_parse_llm_response s) ∨
        ∃ m, re_search_brace_block (_clean_json_text s) = some m ∧
          json_loads m = some (_parse_llm_response s)) ∧
    _parse_llm_response "@@garbage@@" =
      .obj [("action", .str "done"),
            ("reasoning", .str "Could not parse LLM response"),
            ("trade_action", .str "done"),
            ("symbol", .str ""),
            ("quantity", .num 0)] ∧
    hasActionAndReasoning default_done_record = true := by
  refine ⟨?_, rfl, rfl⟩
  intro s
  unfold _parse_llm_response
  by_cases h0 : (pyStripList s.toList).isEmpty
  · rw [if_pos h0]
    left
    rfl
  · rw [if_neg h0]
    cases hj : json_loads (_clean_json_text s) with
    | some j =>
      simp only [hj]
      right; left
      trivial
    | none =>
      cases hm : re_search_brace_block (_clean_json_text s) with
      | none =>
        simp only [hj, hm]
        left
        rfl
      | some m =>
        cases hjm : json_loads m with
        | some j =>
          simp only [hj, hm, hjm]
          right; right
          exact ⟨m, rfl, hjm⟩
        | none =>
          simp only [hj, hm, hjm]
          left
          rfl

/-- Claim C5: routing after THINK. Once the trajectory length reaches
max_think_steps the route is "decide" whatever the stored response is;
below the cap the lower-cased action tag selects "observe", "think", or
"decide" for any other value; a non-"decide" route is only possible
below the cap; and consequently the trajectory length after any THINK
step reachable in an episode never exceeds max_think_steps. -/
theorem c5_routing :
    (∀ (maxS len : Nat) (resp : JValue), maxS ≤ len →
        _route_from_think maxS len resp = some "decide") ∧
    (∀ (maxS len : Nat) (resp : JValue) (a : String), len < maxS →
        routeActionTag resp = some a →
        ((a = "observe" → _route_from_think maxS len resp = some "observe") ∧
         (a = "think" → _route_from_think maxS len resp = some "think") ∧
         (a ≠ "observe" → a ≠ "think" →
            _route_from_think maxS len resp = some "decide"))) ∧
    (∀ (maxS len : Nat) (resp : JValue),
        _route_from_think maxS len resp ≠ some "decide" → len < maxS) ∧
    (∀ (maxS n : Nat), 1 ≤ maxS → ThinkReach maxS n → n + 1 ≤ maxS) := by
  have h1 : ∀ (maxS len : Nat) (resp : JValue), maxS ≤ len →
      _route_from_think maxS len resp = some "decide" := by
    intro maxS len resp h
    unfold _route_from_think
    rw [if_pos h]
  refine ⟨h1, ?_, ?_, ?_⟩
  · intro maxS len resp a hlt htag
    have hng : ¬ len ≥ maxS := not_le.mpr hlt
    refine ⟨?_, ?_, ?_⟩
    · intro ha
      unfold _route_from_think
      rw [if_neg hng, htag, ha]
      simp
    · intro ha
      unfold _route_from_think
      rw [if_neg hng, htag, ha]
      simp
    · intro ha hb
      unfold _route_from_think
      rw [if_neg hng, htag]
      simp [ha, hb]
  · intro maxS len resp h
    by_contra hlen
    exact h (h1 maxS len resp (not_lt.mp hlen))
  · intro maxS n hmax hr
    induction hr with
    | zero => omega
    | cont n resp h hroute ih =>
      have hlt : n + 1 < maxS := by
        by_contra hge
        have hd := h1 maxS (n + 1) resp (not_lt.mp hge)
        rcases hroute with hr1 | hr1 <;> rw [hd] at hr1 <;> simp at hr1
      omega

/-- Claim C5, witness: the routing theorem applied at the cap, below
the cap, and to a reachable length-1 trajectory. -/
theorem c5_witness :
    _route_from_think 3 3 (.obj [("action", .str "think")]) = some "decide" ∧
    _route_from_think 3 1 (.obj [("action", .str "OBSERVE")]) = some "observe" ∧
    1 + 1 ≤ 3 :=
  ⟨c5_routing.1 3 3 (.obj [("action", .str "think")]) (by norm_num),
   (c5_routing.2.1 3 1 (.obj [("action", .str "OBSERVE")]) "observe" (by norm_num) rfl).1 rfl,
   c5_routing.2.2.2 3 1 (by norm_num)
     (ThinkReach.cont 0 (.obj [("action", .str "think")]) ThinkReach.zero (Or.inl rfl))⟩

/-- Claim C7, counterexample: a parsed response mapping with no
quantity field but a numeric trade_action makes decide_action raise
(Python calls .lower() on the number), so no Action with a normalized
type is returned. -/
theorem c7_counterexample :
    dictGet [(("trade_action" : String), JValue.num 1)] "quantity" = none ∧
    decide_action (.obj [("trade_action", .num 1)]) = none :=
  ⟨rfl, rfl⟩

/-- Claim C7, amended: for every parsed response mapping whose quantity
field is absent or numeric and whose trade_action and symbol fields are
absent or strings, decide_action returns an Action whose type is one of
buy, sell, done: the lower-cased trade_action when that is one of the
three, and "done" for any other string (silent coercion). -/
theorem c7_decide_action :
    ∀ (kvs : List (String × JValue)),
      (dictGet kvs "quantity" = none ∨ ∃ q, dictGet kvs "quantity" = some (.num q)) →
      (dictGet kvs "trade_action" = none ∨ ∃ t, dictGet kvs "trade_action" = some (.str t)) →
      (dictGet kvs "symbol" = none ∨ ∃ u, dictGet kvs "symbol" = some (.str u)) →
      ∃ a, decide_action (.obj kvs) = some a ∧
        (a.type = "buy" ∨ a.type = "sell" ∨ a.type = "done") ∧
        (∀ t, dictGet kvs "trade_action" = some (.str t) →
          ((pyLower t = "buy" ∨ pyLower t = "sell" ∨ pyLower t = "done") →
              a.type = pyLower t) ∧
          (¬(pyLower t = "buy" ∨ pyLower t = "sell" ∨ pyLower t = "done") →
              a.type = "done")) := by
  intro kvs hq hta hsym
  have hta2 : ∃ t0 : String, pyStrLower (pyGetJ kvs "trade_action" (.str "done")) = some (pyLower t0) ∧
      (dictGet kvs "trade_action" = none → t0 = "done") ∧
      (∀ t, dictGet kvs "trade_action" = some (.str t) → t0 = t) := by
    rcases hta with h | ⟨t, h⟩
    · refine ⟨"done", by simp [pyGetJ, h, pyStrLower], fun _ => rfl, fun t ht => ?_⟩
      rw [h] at ht
      cases ht
    · refine ⟨t, by simp [pyGetJ, h, pyStrLower], fun hn => ?_, fun t2 ht2 => ?_⟩
      · rw [h] at hn
        cases hn
      · rw [h] at ht2
        cases ht2
        rfl
  have hsym2 : ∃ u0 : String, pyStrUpper (pyGetJ kvs "symbol" (.str "")) = some (pyUpper u0) := by
    rcases hsym with h | ⟨u, h⟩
    · exact ⟨"", by simp [pyGetJ, h, pyStrUpper]⟩
    · exact ⟨u, by simp [pyGetJ, h, pyStrUpper]⟩
  have hq2 : ∃ q0 : ℚ, pyFloat (pyGetJ kvs "quantity" (.num 0)) = some q0 := by
    rcases hq with h | ⟨q, h⟩
    · exact ⟨0, by simp [pyGetJ, h, pyFloat]⟩
    · exact ⟨q, by simp [pyGetJ, h, pyFloat]⟩
  obtain ⟨t0, hlow, ht0n, ht0s⟩ := hta2
  obtain ⟨u0, hup⟩ := hsym2
  obtain ⟨q0, hfl⟩ := hq2
  refine ⟨⟨if pyLower t0 = "buy" ∨ pyLower t0 = "sell" ∨ pyLower t0 = "done" then pyLower t0 else "done", pyUpper u0, q0, pyGetJ kvs "reasoning" (.str "No decision made")⟩, ?_, ?_, ?_⟩
  · simp only [decide_action]
    rw [hlow, hup, hfl]
  · by_cases hc : pyLower t0 = "buy" ∨ pyLower t0 = "sell" ∨ pyLower t0 = "done"
    · simp only [if_pos hc]
      exact hc
    · simp only [if_neg hc]
      right; right; trivial
  · intro t ht
    have ht0 : t0 = t := ht0s t ht
    subst ht0
    constructor
    · intro hc
      simp only [if_pos hc]
    · intro hc
      simp only [if_neg hc]

/-- Claim C7, witness: the amended theorem at a mapping whose
trade_action "HOLD" is outside the three action types and is coerced to
"done". -/
theorem c7_witness :
    ∃ a, decide_action (.obj [("trade_action", .str "HOLD"), ("quantity", .num 5)]) = some a ∧
      a.type = "done" := by
  obtain ⟨a, ha, _, hcases⟩ := c7_decide_action
    [("trade_action", .str "HOLD"), ("quantity", .num 5)]
    (Or.inr ⟨5, rfl⟩) (Or.inr ⟨"HOLD", rfl⟩) (Or.inl rfl)
  refine ⟨a, ha, ?_⟩
  exact (hcases "HOLD" rfl).2 (by decide)

/-- Claim C8: for a decided Action of type "sell", the ACT step ignores
the Action's quantity field — it calls Portfolio.sell with quantity
None, so the portfolio outcome is independent of the recorded quantity
and, when the symbol is held, the entire held quantity is sold and the
entry removed. -/
theorem c8_act_sells_all :
    ∀ (p : Portfolio) (prices : List (String × ℚ)) (a : AgentAction) (q2 : ℚ),
      a.type = "sell" →
      (_node_act_portfolio p prices { a with quantity := q2 } =
        _node_act_portfolio p prices a) ∧
      (∀ pos, dictGet p.positions (pyUpper a.symbol) = some pos →
        dictGet (_node_act_portfolio p prices a).positions (pyUpper a.symbol) = none ∧
        (_node_act_portfolio p prices a).cash =
          p.cash + pos.quantity * prices_get prices a.symbol) := by
  intro p prices a q2 ht
  have hnb : a.type ≠ "buy" := by rw [ht]; decide
  constructor
  · unfold _node_act_portfolio
    simp [ht]
  · intro pos hd
    have hact : _node_act_portfolio p prices a =
        (p.sell a.symbol none (prices_get prices a.symbol)).1 := by
      unfold _node_act_portfolio
      simp [ht]
    rw [hact, Portfolio.sell_full p a.symbol none (prices_get prices a.symbol) pos hd rfl]
    exact ⟨dictGet_dictErase_self .., rfl⟩

/-- Claim C8, witness: the ACT step on a sell Action recording quantity
2 removes the whole five-share position. -/
theorem c8_witness :
    dictGet (_node_act_portfolio (Portfolio.mk [("AAPL", Position.mk "AAPL" 5 10 none)] 0)
        [("AAPL", 30)] (AgentAction.mk "sell" "AAPL" 2 .null)).positions (pyUpper "AAPL") = none :=
  ((c8_act_sells_all (Portfolio.mk [("AAPL", Position.mk "AAPL" 5 10 none)] 0)
      [("AAPL", 30)] (AgentAction.mk "sell" "AAPL" 2 .null) 99 rfl).2
    (Position.mk "AAPL" 5 10 none) rfl).1

/-- Claim C9: holdings keys are stored upper-cased, but buy checks
membership with the raw symbol. For a portfolio whose keys are all
upper-case, buying with a non-upper-case spelling of a held symbol
succeeds as a "new" position: the entry under the upper-cased key is
replaced by a fresh position with the bought quantity and avg_price =
price (the previously held quantity is discarded) while cash is still
debited by the full cost. -/
theorem c9_buy_replaces_position :
    ∀ (p : Portfolio) (s : String) (q c : ℚ) (pos0 : Position),
      (∀ kv ∈ p.positions, kv.1 = pyUpper kv.1) →
      s ≠ pyUpper s →
      dictGet p.positions (pyUpper s) = some pos0 →
      q * c ≤ p.cash →
      (p.buy s q c).2 = true ∧
      (p.buy s q c).1.cash = p.cash - q * c ∧
      dictGet (p.buy s q c).1.positions (pyUpper s) = some ⟨pyUpper s, q, c, none⟩ := by
  intro p s q c pos0 hkeys hne hd hc
  have hn : dictGet p.positions s = none := by
    cases hg : dictGet p.positions s with
    | none => rfl
    | some v =>
      have hm := dictGet_mem hg
      exact absurd (hkeys _ hm) hne
  rw [Portfolio.buy_not_held p s q c hc hn]
  exact ⟨rfl, rfl, dictGet_dictInsert_self ..⟩

/-- Claim C9, witness: buying two shares of "aapl" while holding ten
shares of "AAPL" leaves a fresh two-share position. -/
theorem c9_witness :
    ((Portfolio.mk [("AAPL", Position.mk "AAPL" 10 20 none)] 1000).buy "aapl" 2 50).2 = true ∧
    dictGet ((Portfolio.mk [("AAPL", Position.mk "AAPL" 10 20 none)] 1000).buy
        "aapl" 2 50).1.positions (pyUpper "aapl") = some ⟨pyUpper "aapl", 2, 50, none⟩ := by
  have h := c9_buy_replaces_position (Portfolio.mk [("AAPL", Position.mk "AAPL" 10 20 none)] 1000)
    "aapl" 2 50 (Position.mk "AAPL" 10 20 none)
    (by intro kv hkv; simp only [List.mem_singleton] at hkv; subst hkv; rfl)
    (by decide) rfl (by norm_num)
  exact ⟨h.1, h.2.2⟩

/-- Claim C10: decide_action is not total over parser outputs. The
parser can produce the mapping with trade_action "buy" and the
non-numeric quantity string "ten" (shown via json_loads on its JSON
spelling), and on that mapping decide_action raises (float("ten") is a
ValueError), modelled as returning no Action. -/
theorem c10_decide_action_not_total :
    json_loads (String.mk ['{', '"', 't', 'r', 'a', 'd', 'e', '_', 'a', 'c', 't', 'i', 'o', 'n',
        '"', ':', '"', 'b', 'u', 'y', '"', ',', '"', 'q', 'u', 'a', 'n', 't', 'i', 't', 'y',
        '"', ':', '"', 't', 'e', 'n', '"', '}']) =
      some (.obj [("trade_action", .str "buy"), ("quantity", .str "ten")]) ∧
    decide_action (.obj [("trade_action", .str "buy"), ("quantity", .str "ten")]) = none :=
  ⟨rfl, rfl⟩
